import Mathlib

/-!
Shallow embedding of the multipart-upload core of the `oss-rust` client
(`src/oss.rs`, `src/utils.rs`) and proofs of its specified properties.

Machine integers (`u64`) are embedded as `Nat`: every arithmetic result the
planner computes (`i * chunk_size`, `size / chunk_size`, `size % chunk_size`,
`chunks.len() + 1`) is bounded by the input `size < 2^64`, so no wraparound
can occur and the `Nat` embedding is exact.
-/

namespace Oss

/-- Error type, embedding `errors::Error` (`Error::E`) and
`ObjectError::{PutError, DeleteError}` as carried strings. -/
inductive OssError where
  | e (msg : String)
  | putError (msg : String)
  | deleteError (msg : String)
  deriving DecidableEq

/-- Embedding of `utils::FileChunk`: 1-based sequence number, byte offset, byte length. -/
structure FileChunk where
  number : Nat
  offset : Nat
  size : Nat
  deriving DecidableEq

/-- Embedding of `utils::split_file_by_part_size` (utils.rs:47-83), with the file
represented by its metadata length `size`.  `chunk_size <= 0` on `u64`
means `chunk_size = 0`.  The `while` loop building the full-size chunks is
embedded as a map over `List.range`. -/
def split_file_by_part_size (size chunk_size : Nat) :
    Except String (List FileChunk) :=
  if chunk_size = 0 then
    .error "chunk_size invalid"
  else
    let chunk_n := size / chunk_size
    if 10000 ≤ chunk_n then
      .error "Too many parts, please increase part size"
    else
      let full := (List.range chunk_n).map fun i =>
        { number := i + 1, offset := i * chunk_size, size := chunk_size }
      if 0 < size % chunk_size then
        .ok (full ++ [{ number := full.length + 1,
                        offset := full.length * chunk_size,
                        size := size % chunk_size }])
      else
        .ok full

/-- The chunk list returned on success, as a total function (used to state
facts about the shape of a successful plan). -/
def planned_chunk (size chunk_size i : Nat) : FileChunk :=
  if i < size / chunk_size then
    { number := i + 1, offset := i * chunk_size, size := chunk_size }
  else
    { number := size / chunk_size + 1,
      offset := (size / chunk_size) * chunk_size,
      size := size % chunk_size }

/-- Shape of a successful plan: its length, and every entry described by
`planned_chunk`. -/
theorem split_ok_shape (size chunk_size : Nat) (l : List FileChunk)
    (h : split_file_by_part_size size chunk_size = .ok l) :
    l.length = size / chunk_size + (if 0 < size % chunk_size then 1 else 0) ∧
    ∀ i, l[i]? = if i < l.length then some (planned_chunk size chunk_size i)
                 else none := by
  unfold split_file_by_part_size at h
  by_cases h0 : chunk_size = 0
  · rw [if_pos h0] at h; exact absurd h (by simp)
  rw [if_neg h0] at h
  by_cases hn : 10000 ≤ size / chunk_size
  · rw [if_pos hn] at h; exact absurd h (by simp)
  rw [if_neg hn] at h
  simp only at h
  by_cases hr : 0 < size % chunk_size
  · rw [if_pos hr] at h
    have hl := Except.ok.inj h
    subst hl
    refine ⟨by simp [hr], fun i => ?_⟩
    simp only [List.length_append, List.length_map, List.length_range,
      List.length_cons, List.length_nil]
    rw [List.getElem?_append]
    by_cases hi : i < size / chunk_size
    · rw [if_pos (by simpa using hi)]
      rw [List.getElem?_map]
      rw [if_pos (by omega)]
      simp [List.getElem?_range, hi, planned_chunk]
    · rw [if_neg (by simpa using hi)]
      simp only [List.length_map, List.length_range]
      by_cases hi2 : i < size / chunk_size + 1
      · have : i = size / chunk_size := by omega
        subst this
        rw [if_pos (by omega)]
        simp [planned_chunk, hi]
      · rw [if_neg (by omega)]
        have : 1 ≤ i - size / chunk_size := by omega
        rcases Nat.exists_eq_add_of_le this with ⟨k, hk⟩
        rw [hk]
        simp
  · rw [if_neg hr] at h
    have hl := Except.ok.inj h
    subst hl
    refine ⟨by simp [hr], fun i => ?_⟩
    simp only [List.length_map, List.length_range]
    rw [List.getElem?_map]
    by_cases hi : i < size / chunk_size
    · rw [if_pos hi]
      simp [List.getElem?_range, hi, planned_chunk]
    · rw [if_neg hi]
      simp [List.getElem?_range, hi]
      omega

/-- C2: for every `chunk_size > 0` and `file_size ≥ 0` on which the planner
succeeds, the plan consists of `n = file_size / chunk_size` full chunks
`(i+1, i*chunk_size, chunk_size)` followed by one trailing chunk of size
`file_size % chunk_size` when that remainder is nonzero; sequence numbers are
contiguous from 1, consecutive byte ranges are adjacent (offsets strictly
increasing and non-overlapping), the chunk sizes sum to `file_size`, and the
250000-byte / 100000-chunk example plans to exactly the three stated chunks. -/
theorem chunk_planner_spec (size chunk_size : Nat) (hcs : 0 < chunk_size)
    (l : List FileChunk)
    (h : split_file_by_part_size size chunk_size = .ok l) :
    (∀ i, i < size / chunk_size →
      l[i]? = some { number := i + 1, offset := i * chunk_size,
                     size := chunk_size }) ∧
    (0 < size % chunk_size →
      l[size / chunk_size]? =
        some { number := size / chunk_size + 1,
               offset := (size / chunk_size) * chunk_size,
               size := size % chunk_size }) ∧
    l.length = size / chunk_size + (if 0 < size % chunk_size then 1 else 0) ∧
    (∀ i a, l[i]? = some a → a.number = i + 1) ∧
    (∀ i a b, l[i]? = some a → l[i + 1]? = some b →
      a.offset + a.size = b.offset ∧ a.offset < b.offset) ∧
    (l.map FileChunk.size).sum = size ∧
    split_file_by_part_size 250000 100000 =
      .ok [{ number := 1, offset := 0, size := 100000 },
           { number := 2, offset := 100000, size := 100000 },
           { number := 3, offset := 200000, size := 50000 }] := by
  obtain ⟨hlen, hidx⟩ := split_ok_shape size chunk_size l h
  have hfull : ∀ i, i < size / chunk_size →
      l[i]? = some { number := i + 1, offset := i * chunk_size,
                     size := chunk_size } := by
    intro i hi
    rw [hidx i, if_pos (by omega)]
    simp [planned_chunk, hi]
  have htail : 0 < size % chunk_size →
      l[size / chunk_size]? =
        some { number := size / chunk_size + 1,
               offset := (size / chunk_size) * chunk_size,
               size := size % chunk_size } := by
    intro hr
    rw [hidx _, if_pos (by rw [hlen, if_pos hr]; omega)]
    simp [planned_chunk]
  have hbound : ∀ i a, l[i]? = some a →
      i < size / chunk_size + (if 0 < size % chunk_size then 1 else 0) := by
    intro i a ha
    have := (List.getElem?_eq_some.mp ha).1
    omega
  have hval : ∀ i a, l[i]? = some a → a = planned_chunk size chunk_size i := by
    intro i a ha
    have hi := (List.getElem?_eq_some.mp ha).1
    rw [hidx i, if_pos hi] at ha
    exact (Option.some.injEq _ _).mp ha.symm
  refine ⟨hfull, htail, hlen, ?_, ?_, ?_, by rfl⟩
  · intro i a ha
    have hb := hbound i a ha
    have := hval i a ha
    subst this
    unfold planned_chunk
    by_cases hi : i < size / chunk_size
    · rw [if_pos hi]
    · rw [if_neg hi]
      simp only
      split at hb <;> omega
  · intro i a b ha hb
    have hba := hbound i a ha
    have hbb := hbound (i + 1) b hb
    have hva := hval i a ha
    have hvb := hval (i + 1) b hb
    subst hva; subst hvb
    unfold planned_chunk
    have hi : i < size / chunk_size := by split at hbb <;> omega
    rw [if_pos hi]
    by_cases hi1 : i + 1 < size / chunk_size
    · rw [if_pos hi1]
      constructor
      · simp [Nat.succ_mul]
      · exact (Nat.mul_lt_mul_right hcs).mpr (by omega)
    · rw [if_neg hi1]
      have hieq : i + 1 = size / chunk_size := by omega
      constructor
      · simp only
        rw [← hieq, Nat.succ_mul]
      · simp only
        rw [← hieq]
        exact (Nat.mul_lt_mul_right hcs).mpr (by omega)
  · -- sum of the chunk sizes is the file size
    have hdm := Nat.div_add_mod size chunk_size
    rw [Nat.mul_comm] at hdm
    have hconst : ∀ m : Nat, (((List.range m).map fun i =>
        ({ number := i + 1, offset := i * chunk_size,
           size := chunk_size } : FileChunk)).map FileChunk.size).sum
        = m * chunk_size := by
      intro m
      induction m with
      | zero => simp
      | succ k ih =>
          rw [List.range_succ, List.map_append, List.map_append,
            List.sum_append, ih]
          simp [Nat.succ_mul]
    unfold split_file_by_part_size at h
    rw [if_neg (by omega)] at h
    by_cases hn : 10000 ≤ size / chunk_size
    · rw [if_pos hn] at h; exact absurd h (by simp)
    rw [if_neg hn] at h
    simp only at h
    by_cases hr : 0 < size % chunk_size
    · rw [if_pos hr] at h
      have hl := Except.ok.inj h
      subst hl
      rw [List.map_append, List.sum_append, hconst]
      have h2 : ((List.map FileChunk.size
          [{ number := (((List.range (size / chunk_size)).map fun i =>
                ({ number := i + 1, offset := i * chunk_size,
                   size := chunk_size } : FileChunk))).length + 1,
             offset := (((List.range (size / chunk_size)).map fun i =>
                ({ number := i + 1, offset := i * chunk_size,
                   size := chunk_size } : FileChunk))).length * chunk_size,
             size := size % chunk_size }])).sum = size % chunk_size := by
        simp
      rw [h2]
      omega
    · rw [if_neg hr] at h
      have hl := Except.ok.inj h
      subst hl
      rw [hconst]
      omega

/-! ### Resource canonicalizer (`oss.rs:27-78`, `oss.rs:136-157`) -/

/-- The fixed allow-list `RESOURCES` (oss.rs:27-78), verbatim, duplicate
`"comp"` entry included. -/
def RESOURCES : List String :=
  ["acl", "uploads", "location", "cors", "logging", "website", "referer",
   "lifecycle", "delete", "append", "tagging", "objectMeta", "uploadId",
   "partNumber", "security-token", "position", "img", "style", "styleName",
   "replication", "replicationProgress", "replicationLocation", "cname",
   "bucketInfo", "comp", "qos", "live", "status", "vod", "startTime",
   "endTime", "symlink", "x-oss-process", "response-content-type",
   "response-content-language", "response-expires", "response-cache-control",
   "response-content-disposition", "response-content-encoding", "udf",
   "udfName", "udfImage", "udfId", "udfImageDesc", "udfApplication", "comp",
   "udfApplicationLog", "restore", "callback", "callback-var"]

/-- A parameter entry: name and optional value.  A `HashMap<S, Option<S>>` is
embedded as a list of entries whose keys are pairwise distinct
(`(params.map Prod.fst).Nodup`); its unspecified iteration order is the
order of the list. -/
abbrev Entry := String × Option String

/-- Key order used by `resources.sort_by(|a, b| a.0.cmp(b.0))`: Rust's
byte-wise lexicographic `str` comparison, which on UTF-8 strings coincides
with the code-point lexicographic order of Lean's `String`. -/
def keyLe (a b : Entry) : Prop := a.1 ≤ b.1

instance : DecidableRel keyLe := fun a b =>
  decidable_of_iff (a.1.toList ≤ b.1.toList) String.le_iff_toList_le.symm

instance : IsTotal Entry keyLe := ⟨fun a b => le_total a.1 b.1⟩

instance : IsTrans Entry keyLe := ⟨fun _ _ _ h h' => le_trans h h'⟩

/-- One serialized entry: `key=value` when a value is present, bare `key`
otherwise (the body of the `for` loop at oss.rs:146-155). -/
def emitEntry (e : Entry) : String :=
  match e.2 with
  | some v => e.1 ++ "=" ++ v
  | none => e.1

/-- Embedding of `OSS::get_resources_str` (oss.rs:136-157): filter keys through
`RESOURCES`, sort by key, then fold the entries into a `&`-separated string
(`result += "&"` only when `result` is already nonempty).  The `sort_by`
call is embedded as an insertion sort by `keyLe`; since the kept keys of a
`HashMap` are pairwise distinct, every sort by key produces the same list. -/
def get_resources_str (params : List Entry) : String :=
  let resources := params.filter fun e => RESOURCES.contains e.1
  let sorted := List.insertionSort keyLe resources
  sorted.foldl
    (fun result e =>
      if result = "" then emitEntry e else result ++ "&" ++ emitEntry e)
    ""

/-- Modelled from the spec: step (4) of the canonicalization algorithm,
"join with `&`", as a plain join of the serialized entries (compared with
the fold the source uses). -/
def joinAmp : List String → String
  | [] => ""
  | [s] => s
  | s :: rest => s ++ "&" ++ joinAmp rest

/-! ### Completion body (`oss.rs:771-789`) -/

/-- Embedding of `oss::Part` (oss.rs:776-780). -/
structure Part where
  PartNumber : Nat
  ETag : String
  deriving DecidableEq

/-- Embedding of `oss::CompleteMultipartUpload` (oss.rs:771-774); the Rust field is also
named `Part`. -/
structure CompleteMultipartUpload where
  Part : List Oss.Part
  deriving DecidableEq

/-- Serialization of one `Part` by `serde_xml_rs::to_string`, as pinned by
the repository's own test `test_get_complete_str` (oss.rs:798-814):
`<Part><PartNumber>N</PartNumber><ETag>etag</ETag></Part>`, the ETag
verbatim, no whitespace. -/
def partToXml (p : Part) : String :=
  "<Part><PartNumber>" ++ toString p.PartNumber ++ "</PartNumber><ETag>"
    ++ p.ETag ++ "</ETag></Part>"

/-- Embedding of `oss::get_complete_str` (oss.rs:782-789): open tag, one serialized
`<Part>` per entry in order, close tag. -/
def get_complete_str (complete : CompleteMultipartUpload) : String :=
  complete.Part.foldl (fun s p => s ++ partToXml p)
    "<CompleteMultipartUpload>" ++ "</CompleteMultipartUpload>"

/-! ### Multipart-upload orchestration (`oss.rs:468-729`, `utils.rs:17-23`)

Each network operation is embedded as a pure function that returns the
`Request` the code hands to the HTTP client together with the operation's
outcome, the outcome being supplied by an environment `Env` standing for the
network, the clock and the signer (the repository's `auth.rs` is not among
the sources; only its call sites are, so the token it returns is an
uninterpreted function of the call-site arguments).  The orchestrator
threads the requests into a trace, so "which requests were issued, in which
order, carrying what" is a theorem about the trace. -/

/-- HTTP method of a request. -/
inductive Method where
  | get
  | put
  | post
  | delete
  deriving DecidableEq

/-- A request body: raw bytes (part upload) or a string (completion XML). -/
inductive Body where
  | bytes (b : List Nat)
  | str (s : String)
  deriving DecidableEq

/-- A request as handed to the HTTP client: method, object name, the
canonical resource string (the query), the headers actually attached to the
send call, and the body if any. -/
structure Request where
  method : Method
  object : String
  resource : String
  headers : List (String × String)
  body : Option Body
  deriving DecidableEq

/-- Embedding of `HeaderMap::insert`: replace any existing entry for the name, add the
new one. -/
def hdrInsert (hs : List (String × String)) (name val : String) :
    List (String × String) :=
  (hs.filter fun p => p.1 ≠ name) ++ [(name, val)]

/-- Embedding of `utils::to_headers` (utils.rs:25-36): insert every entry of the caller's
map into a fresh `HeaderMap`. -/
def to_headers (h : List (String × String)) : List (String × String) :=
  h.foldl (fun hs p => hdrInsert hs p.1 p.2) []

/-- The environment an orchestration run executes against: the clock
(`OSS::date`), the signer (`oss_sign`, whose source file is not among the
sources; the token is an uninterpreted function of method, object, resource
string and headers), the source file's metadata length and bytes, and the
network's response to each of the four multipart operations. -/
structure Env where
  date : String
  sign : Method → String → String → List (String × String) → String
  fileSize : Nat
  fileBytes : List Nat
  initResp : Except OssError String
  partResp : Nat → Except OssError String
  completeResp : Except OssError Unit
  abortResp : Except OssError Unit

/-- Embedding of `utils::load_chunk_file` (utils.rs:17-23): seek to `offset`, then
`take(size).read_to_end`, i.e. read *at most* `size` bytes — fewer when the
file ends early, without any error. -/
def load_chunk_file (file : List Nat) (offset size : Nat) : List Nat :=
  (file.drop offset).take size

/-- Embedding of `OSS::initiate_multipart_upload` (oss.rs:469-519): POST with resource
`uploads`, caller headers plus `Date` and `Authorization`, no body. -/
def initiate_multipart_upload (env : Env) (object_name : String)
    (headers : Option (List (String × String))) :
    Request × Except OssError String :=
  let resources_str := "uploads"
  let hs0 := match headers with
    | some h => to_headers h
    | none => []
  let hs1 := hdrInsert hs0 "Date" env.date
  let auth := env.sign .post object_name resources_str hs1
  let hs2 := hdrInsert hs1 "Authorization" auth
  ({ method := .post, object := object_name, resource := resources_str,
     headers := hs2, body := none },
   env.initResp)

/-- The request `OSS::upload_part` (oss.rs:522-578) issues for one chunk:
PUT with resource `partNumber=N&uploadId=ID`, headers `Date`,
`Authorization` and `Content-Length` (the byte count actually read), body
the bytes `load_chunk_file` returned. -/
def upload_part_request (env : Env) (object_name : String) (chunk : FileChunk)
    (upload_id : String) (headers : Option (List (String × String))) :
    Request :=
  let resources_str :=
    "partNumber=" ++ toString chunk.number ++ "&uploadId=" ++ upload_id
  let hs0 := match headers with
    | some h => to_headers h
    | none => []
  let hs1 := hdrInsert hs0 "Date" env.date
  let auth := env.sign .put object_name resources_str hs1
  let hs2 := hdrInsert hs1 "Authorization" auth
  let buf := load_chunk_file env.fileBytes chunk.offset chunk.size
  let hs3 := hdrInsert hs2 "Content-Length" (toString buf.length)
  { method := .put, object := object_name, resource := resources_str,
    headers := hs3, body := some (.bytes buf) }

/-- Embedding of `OSS::upload_part`: the request above plus the network's outcome (the
etag on success). -/
def upload_part (env : Env) (object_name : String) (chunk : FileChunk)
    (upload_id : String) (headers : Option (List (String × String))) :
    Request × Except OssError String :=
  (upload_part_request env object_name chunk upload_id headers,
   env.partResp chunk.number)

/-- The request `OSS::complete_multipart_upload` (oss.rs:581-632) issues:
POST with resource `uploadId=ID`, headers `Date`, `Authorization` and
`Content-Length` (the UTF-8 byte count of the XML body), body the
completion XML. -/
def complete_multipart_upload_request (env : Env) (object_name : String)
    (upload_id : String) (complete : CompleteMultipartUpload)
    (headers : Option (List (String × String))) : Request :=
  let resources_str := "uploadId=" ++ upload_id
  let buf := get_complete_str complete
  let hs0 := match headers with
    | some h => to_headers h
    | none => []
  let hs1 := hdrInsert hs0 "Date" env.date
  let auth := env.sign .post object_name resources_str hs1
  let hs2 := hdrInsert hs1 "Authorization" auth
  let hs3 := hdrInsert hs2 "Content-Length" (toString buf.utf8ByteSize)
  { method := .post, object := object_name, resource := resources_str,
    headers := hs3, body := some (.str buf) }

/-- Embedding of `OSS::complete_multipart_upload`: request plus outcome. -/
def complete_multipart_upload (env : Env) (object_name : String)
    (upload_id : String) (complete : CompleteMultipartUpload)
    (headers : Option (List (String × String))) :
    Request × Except OssError Unit :=
  (complete_multipart_upload_request env object_name upload_id complete
     headers,
   env.completeResp)

/-- The request `OSS::abort_multipart_upload` (oss.rs:635-674) issues.  The
function builds a `HeaderMap` holding `Date` and `Authorization`, but the
send call is `self.client.delete(&host).send()` (oss.rs:661) with no
`.headers(..)` — the built map is dropped, so the request goes out with no
headers at all. -/
def abort_multipart_upload_request (env : Env) (object_name : String)
    (upload_id : String) : Request :=
  let resources_str := "uploadId=" ++ upload_id
  let hs1 := hdrInsert [] "Date" env.date
  let auth := env.sign .delete object_name resources_str hs1
  let _hs2 := hdrInsert hs1 "Authorization" auth
  { method := .delete, object := object_name, resource := resources_str,
    headers := [], body := none }

/-- Embedding of `OSS::abort_multipart_upload`: request plus outcome. -/
def abort_multipart_upload (env : Env) (object_name : String)
    (upload_id : String) : Request × Except OssError Unit :=
  (abort_multipart_upload_request env object_name upload_id, env.abortResp)

/-- The part-upload loop of `chunk_upload_by_size` (oss.rs:698-720): upload
each chunk in order (with `None` caller headers), collect `(number, etag)`
pairs; on the first failure issue an abort whose own outcome is discarded
(`let _ = ... .await`) and return the part's error; after the last chunk,
issue the completion request (oss.rs:722-728). -/
def upload_loop (env : Env) (object_name upload_id : String) :
    List FileChunk → List Part → Except OssError Unit × List Request
  | [], parts =>
      let (req, res) := complete_multipart_upload env object_name upload_id
        { Part := parts } none
      (res, [req])
  | chunk :: rest, parts =>
      let (req, r) := upload_part env object_name chunk upload_id none
      match r with
      | .ok etag =>
          let (res, reqs) := upload_loop env object_name upload_id rest
            (parts ++ [{ PartNumber := chunk.number, ETag := etag }])
          (res, req :: reqs)
      | .error e =>
          let (areq, _ares) := abort_multipart_upload env object_name
            upload_id
          (.error e, [req, areq])

/-- Embedding of `OSS::chunk_upload_by_size` (oss.rs:677-729): plan, reject an empty
plan, initiate (with the caller's headers), run the part loop, complete.
Returns the caller-visible outcome and the trace of issued requests. -/
def chunk_upload_by_size (env : Env) (object_name : String)
    (chunk_size : Nat) (headers : Option (List (String × String))) :
    Except OssError Unit × List Request :=
  match split_file_by_part_size env.fileSize chunk_size with
  | .error e => (.error (.e e), [])
  | .ok chunks =>
    if chunks.isEmpty then
      (.error (.e "chunks is empty"), [])
    else
      let (initReq, initRes) := initiate_multipart_upload env object_name
        headers
      match initRes with
      | .error e => (.error e, [initReq])
      | .ok upload_id =>
          let (res, reqs) := upload_loop env object_name upload_id chunks []
          (res, initReq :: reqs)

/-- The part loop on a chunk list whose first failing chunk is `c` (every
chunk of `good` succeeds, `c` fails): the loop issues the part requests for
`good` and `c`, then exactly the abort request, no request for `rest`, and
returns `c`'s error whatever the abort outcome is. -/
theorem upload_loop_first_failure (env : Env) (object_name upload_id : String)
    (c : FileChunk) (rest : List FileChunk) (e : OssError) :
    ∀ (good : List FileChunk) (parts : List Part),
    (∀ g ∈ good, ∃ t, env.partResp g.number = Except.ok t) →
    env.partResp c.number = Except.error e →
    upload_loop env object_name upload_id (good ++ c :: rest) parts =
      (Except.error e,
       (good.map fun g =>
         upload_part_request env object_name g upload_id none)
       ++ [upload_part_request env object_name c upload_id none,
           abort_multipart_upload_request env object_name upload_id]) := by
  intro good
  induction good with
  | nil =>
      intro parts _ hfail
      simp [upload_loop, upload_part, abort_multipart_upload, hfail]
  | cons g good ih =>
      intro parts hgood hfail
      obtain ⟨t, ht⟩ := hgood g (by simp)
      have ih' := ih (parts ++ [{ PartNumber := g.number, ETag := t }])
        (fun x hx => hgood x (by simp [hx])) hfail
      simp [upload_loop, upload_part, ht, ih']

/-- Shared backbone for the failure-path claims: under a successful plan, a
successful initiate with id `upload_id`, and a first part failure at chunk
`c`, the whole run returns `c`'s error and its trace is exactly: the
initiate request, the part requests for the successful prefix and for `c`,
and one abort request built from the held `upload_id`. -/
theorem chunk_upload_failure_trace (env : Env) (object_name : String)
    (chunk_size : Nat) (headers : Option (List (String × String)))
    (good rest : List FileChunk) (c : FileChunk) (upload_id : String)
    (e : OssError)
    (hsplit : split_file_by_part_size env.fileSize chunk_size =
      .ok (good ++ c :: rest))
    (hinit : env.initResp = .ok upload_id)
    (hgood : ∀ g ∈ good, ∃ t, env.partResp g.number = Except.ok t)
    (hfail : env.partResp c.number = Except.error e) :
    chunk_upload_by_size env object_name chunk_size headers =
      (Except.error e,
       (initiate_multipart_upload env object_name headers).1 ::
         ((good.map fun g =>
            upload_part_request env object_name g upload_id none)
          ++ [upload_part_request env object_name c upload_id none,
              abort_multipart_upload_request env object_name upload_id])) := by
  unfold chunk_upload_by_size
  rw [hsplit]
  have hloop := upload_loop_first_failure env object_name upload_id c rest e
    good [] hgood hfail
  simp [initiate_multipart_upload, hinit, hloop]

/-! ### Canonicalizer lemmas -/

/-- Strict key order, used to identify the two sorted lists. -/
def keyLt (a b : Entry) : Prop := a.1 < b.1

instance : IsAntisymm Entry keyLt :=
  ⟨fun _ _ h h' => absurd (lt_trans h h') (lt_irrefl _)⟩

/-- The `&`-separator fold of `get_resources_str`, on an already serialized
list. -/
def ampFold (ss : List String) (acc : String) : String :=
  ss.foldl (fun result s => if result = "" then s else result ++ "&" ++ s)
    acc

theorem ampFold_acc (ss : List String) :
    ∀ acc : String, acc ≠ "" → ampFold ss acc = joinAmp (acc :: ss) := by
  induction ss with
  | nil => intro acc _; rfl
  | cons s rest ih =>
      intro acc hacc
      have hne : acc ++ "&" ++ s ≠ "" := by
        intro hcontra
        have hlen := congrArg String.length hcontra
        have h1 : ("&" : String).length = 1 := rfl
        simp [String.length_append, h1] at hlen
      have step : ampFold (s :: rest) acc = ampFold rest (acc ++ "&" ++ s) := by
        simp [ampFold, hacc]
      rw [step, ih _ hne]
      cases rest with
      | nil => simp [joinAmp, String.append_assoc]
      | cons r rs => simp [joinAmp, String.append_assoc]

theorem ampFold_eq_joinAmp (ss : List String) (h : ∀ s ∈ ss, s ≠ "") :
    ampFold ss "" = joinAmp ss := by
  cases ss with
  | nil => rfl
  | cons s rest =>
      have hs : s ≠ "" := h s (by simp)
      have step : ampFold (s :: rest) "" = ampFold rest s := by
        simp [ampFold]
      rw [step, ampFold_acc rest s hs]

/-- Every allow-listed key is nonempty. -/
theorem resources_key_ne_empty : ∀ s ∈ RESOURCES, s ≠ "" := by decide

/-- A kept (filtered) entry serializes to a nonempty string. -/
theorem emitEntry_ne_empty (e : Entry) (he : RESOURCES.contains e.1 = true) :
    emitEntry e ≠ "" := by
  have hk : e.1 ≠ "" := by
    have hmem : e.1 ∈ RESOURCES := by
      simpa [List.contains_iff_exists_mem_beq, beq_iff_eq] using he
    exact resources_key_ne_empty e.1 hmem
  obtain ⟨k, v⟩ := e
  cases v with
  | none => simpa [emitEntry] using hk
  | some v =>
      simp only [emitEntry]
      intro hcontra
      have hlen := congrArg String.length hcontra
      have h1 : ("=" : String).length = 1 := rfl
      simp [String.length_append, h1] at hlen

theorem get_resources_str_char (l : List Entry) :
    get_resources_str l =
      ampFold ((List.insertionSort keyLe
        (l.filter fun e => RESOURCES.contains e.1)).map emitEntry) "" := by
  unfold get_resources_str ampFold
  rw [List.foldl_map]

theorem sorted_emit_ne_empty (l : List Entry) :
    ∀ s ∈ (List.insertionSort keyLe
      (l.filter fun e => RESOURCES.contains e.1)).map emitEntry, s ≠ "" := by
  intro s hs
  obtain ⟨e, he, rfl⟩ := List.mem_map.mp hs
  have hmem : e ∈ l.filter fun e => RESOURCES.contains e.1 :=
    (List.perm_insertionSort keyLe _).mem_iff.mp he
  exact emitEntry_ne_empty e (List.mem_filter.mp hmem).2

/-- Sorted by key and with pairwise-distinct keys means strictly sorted by
key. -/
theorem sorted_keyLt_of_nodup (s : List Entry) (hle : List.Sorted keyLe s)
    (hndk : (s.map Prod.fst).Nodup) : List.Sorted keyLt s := by
  rw [List.Nodup, List.pairwise_map] at hndk
  exact (hle.and hndk).imp fun h => lt_of_le_of_ne h.1 h.2

/-- C4: `get_resources_str` keeps only allow-listed keys, sorts them by key,
emits `key` or `key=value`, and joins with `&` (stated as equality with the
spec's plain join `joinAmp`); two inputs with the same entries in any order
canonicalize identically, and the empty input canonicalizes to `""`. -/
theorem get_resources_str_spec (l₁ l₂ : List Entry)
    (hnd : (l₁.map Prod.fst).Nodup) (hperm : List.Perm l₁ l₂) :
    get_resources_str l₁ = get_resources_str l₂ ∧
    get_resources_str l₁ =
      joinAmp ((List.insertionSort keyLe
        (l₁.filter fun e => RESOURCES.contains e.1)).map emitEntry) ∧
    get_resources_str ([] : List Entry) = "" := by
  have hjoin : get_resources_str l₁ =
      joinAmp ((List.insertionSort keyLe
        (l₁.filter fun e => RESOURCES.contains e.1)).map emitEntry) :=
    (get_resources_str_char l₁).trans
      (ampFold_eq_joinAmp _ (sorted_emit_ne_empty l₁))
  have hfs : List.Perm (l₁.filter fun e => RESOURCES.contains e.1)
      (l₂.filter fun e => RESOURCES.contains e.1) :=
    hperm.filter _
  have hnd₁ : (((l₁.filter fun e => RESOURCES.contains e.1)).map
      Prod.fst).Nodup :=
    hnd.sublist ((List.filter_sublist l₁).map Prod.fst)
  have hperm' : List.Perm
      (List.insertionSort keyLe (l₁.filter fun e => RESOURCES.contains e.1))
      (List.insertionSort keyLe
        (l₂.filter fun e => RESOURCES.contains e.1)) :=
    ((List.perm_insertionSort keyLe _).trans hfs).trans
      (List.perm_insertionSort keyLe _).symm
  have hnds₁ : ((List.insertionSort keyLe
      (l₁.filter fun e => RESOURCES.contains e.1)).map Prod.fst).Nodup :=
    (((List.perm_insertionSort keyLe _).map Prod.fst).nodup_iff).mpr hnd₁
  have hnds₂ : ((List.insertionSort keyLe
      (l₂.filter fun e => RESOURCES.contains e.1)).map Prod.fst).Nodup :=
    ((hperm'.map Prod.fst).nodup_iff).mp hnds₁
  have heq : List.insertionSort keyLe
      (l₁.filter fun e => RESOURCES.contains e.1) =
      List.insertionSort keyLe
        (l₂.filter fun e => RESOURCES.contains e.1) :=
    List.eq_of_perm_of_sorted hperm'
      (sorted_keyLt_of_nodup _ (List.sorted_insertionSort keyLe _) hnds₁)
      (sorted_keyLt_of_nodup _ (List.sorted_insertionSort keyLe _) hnds₂)
  refine ⟨?_, hjoin, rfl⟩
  rw [get_resources_str_char l₁, get_resources_str_char l₂, heq]

/-! ### Completion body, planner limit, empty file, abort headers -/

/-- Plain concatenation of serialized parts, in order. -/
def concatParts : List Part → String
  | [] => ""
  | p :: ps => partToXml p ++ concatParts ps

theorem foldl_partToXml (ps : List Part) :
    ∀ a : String, ps.foldl (fun s p => s ++ partToXml p) a
      = a ++ concatParts ps := by
  induction ps with
  | nil =>
      intro a
      simp [concatParts]
  | cons p ps ih =>
      intro a
      rw [List.foldl_cons, ih, concatParts, String.append_assoc]

/-- C5: the completion body for parts `[(1,"etag1"),(2,"etag2")]` is exactly
the stated XML string, and in general the body is the open tag, one
`<Part><PartNumber>N</PartNumber><ETag>etag</ETag></Part>` element per part
in list order with the ETag verbatim and no whitespace, then the close
tag. -/
theorem get_complete_str_spec :
    get_complete_str
      { Part := [{ PartNumber := 1, ETag := "etag1" },
                 { PartNumber := 2, ETag := "etag2" }] } =
      "<CompleteMultipartUpload><Part><PartNumber>1</PartNumber><ETag>etag1</ETag></Part><Part><PartNumber>2</PartNumber><ETag>etag2</ETag></Part></CompleteMultipartUpload>" ∧
    ∀ parts : List Part,
      get_complete_str { Part := parts } =
        "<CompleteMultipartUpload>" ++ concatParts parts
          ++ "</CompleteMultipartUpload>" := by
  constructor
  · rfl
  · intro parts
    unfold get_complete_str
    rw [foldl_partToXml]

/-- C6 counterexample: the keys `a` and `b` are not in the `RESOURCES`
allow-list, so `{b: None, a: "1"}` does not canonicalize to `"a=1&b"` (it
canonicalizes to `""`). -/
theorem get_resources_str_ab_counterexample :
    get_resources_str [("b", none), ("a", some "1")] ≠ "a=1&b" := by decide

/-- C6 amended: both iteration orders of `{b: None, a: "1"}` canonicalize to
the same string, namely `""` (the keys are dropped by the allow-list
filter); with allow-listed keys the analogous example holds with value
`"acl=1&uploads"`. -/
theorem get_resources_str_ab_amended :
    get_resources_str [("b", none), ("a", some "1")] =
      get_resources_str [("a", some "1"), ("b", none)] ∧
    get_resources_str [("b", none), ("a", some "1")] = "" ∧
    get_resources_str [("uploads", none), ("acl", some "1")] =
      get_resources_str [("acl", some "1"), ("uploads", none)] ∧
    get_resources_str [("uploads", none), ("acl", some "1")] =
      "acl=1&uploads" := by decide

/-- C3 counterexample: a 19999-byte file with `chunk_size = 2` plans to
9999 full chunks plus a trailing chunk — 10000 chunks in total, reaching
the stated limit — yet the planner succeeds instead of erroring, because
the code only checks `size / chunk_size >= 10000`. -/
theorem split_limit_counterexample :
    (split_file_by_part_size 19999 2).toOption.map List.length
      = some 10000 := by
  unfold split_file_by_part_size
  rw [if_neg (by norm_num : ¬(2 : Nat) = 0)]
  rw [if_neg (by norm_num : ¬(10000 : Nat) ≤ 19999 / 2)]
  rw [if_pos (by norm_num : 0 < (19999 : Nat) % 2)]
  simp [Except.toOption]

/-- C3 amended: the planner rejects exactly when the number of *full*
chunks `file_size / chunk_size` reaches 10000 (so a plan totalling exactly
10000 chunks via a trailing remainder chunk is still accepted); the
rejection is the stated error and happens before any chunk is built, and
the orchestrator then returns with an empty request trace — zero network
calls. -/
theorem split_limit_rejects (env : Env) (object_name : String)
    (chunk_size : Nat) (headers : Option (List (String × String)))
    (h : 10000 ≤ env.fileSize / chunk_size) :
    split_file_by_part_size env.fileSize chunk_size =
      .error "Too many parts, please increase part size" ∧
    chunk_upload_by_size env object_name chunk_size headers =
      (.error (.e "Too many parts, please increase part size"), []) := by
  have h0 : chunk_size ≠ 0 := by
    intro h0
    rw [h0, Nat.div_zero] at h
    omega
  have hsplit : split_file_by_part_size env.fileSize chunk_size =
      .error "Too many parts, please increase part size" := by
    unfold split_file_by_part_size
    rw [if_neg h0, if_pos h]
  refine ⟨hsplit, ?_⟩
  unfold chunk_upload_by_size
  rw [hsplit]

/-- C9: a zero-length file plans to zero chunks, and the orchestrator then
fails with "chunks is empty" without issuing any request (empty trace, so
in particular no initiate request). -/
theorem chunk_upload_empty_file (env : Env) (object_name : String)
    (chunk_size : Nat) (headers : Option (List (String × String)))
    (hfs : env.fileSize = 0) (hcs : 0 < chunk_size) :
    split_file_by_part_size env.fileSize chunk_size = .ok [] ∧
    chunk_upload_by_size env object_name chunk_size headers =
      (.error (.e "chunks is empty"), []) := by
  have hsplit : split_file_by_part_size env.fileSize chunk_size = .ok [] := by
    unfold split_file_by_part_size
    rw [hfs]
    rw [if_neg (by omega), if_neg (by simp [Nat.zero_div])]
    simp [Nat.zero_mod]
  refine ⟨hsplit, ?_⟩
  unfold chunk_upload_by_size
  rw [hsplit]
  simp

/-- No part-upload request is a DELETE. -/
theorem filter_delete_parts (env : Env) (obj uid : String)
    (gs : List FileChunk) :
    ((gs.map fun g => upload_part_request env obj g uid none).filter
      fun r => r.method == Method.delete) = [] := by
  induction gs with
  | nil => rfl
  | cons g gs ih =>
      rw [List.map_cons, List.filter_cons]
      have hm : ((upload_part_request env obj g uid none).method
          == Method.delete) = false := rfl
      rw [hm]
      simpa using ih

/-- C1: when some part upload fails, the orchestrator issues exactly one
abort request (the only DELETE in the trace), built from the upload id the
initiate step returned; it attempts no part beyond the failing one (every
PUT in the trace is the request of a chunk at or before the failing one);
the caller receives the failing part's own error; and the abort outcome is
discarded — the result is the same error whatever the abort response is. -/
theorem chunk_upload_abort_policy (env : Env) (object_name : String)
    (chunk_size : Nat) (headers : Option (List (String × String)))
    (good rest : List FileChunk) (c : FileChunk) (upload_id : String)
    (e : OssError)
    (hsplit : split_file_by_part_size env.fileSize chunk_size =
      .ok (good ++ c :: rest))
    (hinit : env.initResp = .ok upload_id)
    (hgood : ∀ g ∈ good, ∃ t, env.partResp g.number = Except.ok t)
    (hfail : env.partResp c.number = Except.error e) :
    (chunk_upload_by_size env object_name chunk_size headers).1 =
      Except.error e ∧
    ((chunk_upload_by_size env object_name chunk_size headers).2.filter
       fun r => r.method == Method.delete)
      = [abort_multipart_upload_request env object_name upload_id] ∧
    (abort_multipart_upload_request env object_name upload_id).resource
      = "uploadId=" ++ upload_id ∧
    (∀ r ∈ (chunk_upload_by_size env object_name chunk_size headers).2,
       r.method = Method.put →
       r ∈ (good ++ [c]).map fun g =>
         upload_part_request env object_name g upload_id none) ∧
    (∀ ar, (chunk_upload_by_size { env with abortResp := ar } object_name
       chunk_size headers).1 = Except.error e) := by
  have hmain := chunk_upload_failure_trace env object_name chunk_size headers
    good rest c upload_id e hsplit hinit hgood hfail
  refine ⟨by rw [hmain], ?_, rfl, ?_, ?_⟩
  · rw [hmain]
    show List.filter _ (_ :: _) = _
    rw [List.filter_cons]
    have hminit : (((initiate_multipart_upload env object_name
        headers).1.method) == Method.delete) = false := rfl
    rw [hminit]
    simp only [Bool.false_eq_true, if_false, List.filter_append,
      filter_delete_parts]
    rw [List.filter_cons, List.filter_cons]
    have hmpart : (((upload_part_request env object_name c upload_id
        none).method) == Method.delete) = false := rfl
    have hmabort : (((abort_multipart_upload_request env object_name
        upload_id).method) == Method.delete) = true := rfl
    rw [hmpart, hmabort]
    simp
  · intro r hr hput
    rw [hmain] at hr
    simp only [List.mem_cons, List.mem_append, List.mem_map,
      List.mem_singleton] at hr
    rcases hr with hr | hr
    · subst hr
      have : (initiate_multipart_upload env object_name headers).1.method
          = Method.post := rfl
      rw [this] at hput
      exact absurd hput (by decide)
    rcases hr with ⟨g, hg, hgr⟩ | hr
    · exact List.mem_map.mpr ⟨g, by simp [hg], hgr⟩
    rcases hr with hr | hr
    · subst hr
      exact List.mem_map.mpr ⟨c, by simp, rfl⟩
    · rcases hr with hr | hr
      · subst hr
        have : (abort_multipart_upload_request env object_name
            upload_id).method = Method.delete := rfl
        rw [this] at hput
        exact absurd hput (by decide)
      · exact absurd hr (List.not_mem_nil r)
  · intro ar
    have hmain' := chunk_upload_failure_trace { env with abortResp := ar }
      object_name chunk_size headers good rest c upload_id e hsplit hinit
      hgood hfail
    rw [hmain']

/-! ### Header frame facts (C7, C10) -/

/-- A part-upload request issued with no caller headers carries exactly the
keys `Date`, `Authorization`, `Content-Length`. -/
theorem part_request_header_keys (env : Env) (obj : String) (g : FileChunk)
    (uid : String) :
    (upload_part_request env obj g uid none).headers.map Prod.fst
      = ["Date", "Authorization", "Content-Length"] := rfl

/-- A completion request issued with no caller headers carries exactly the
keys `Date`, `Authorization`, `Content-Length`. -/
theorem complete_request_header_keys (env : Env) (obj uid : String)
    (cmp : CompleteMultipartUpload) :
    (complete_multipart_upload_request env obj uid cmp none).headers.map
      Prod.fst = ["Date", "Authorization", "Content-Length"] := rfl

/-- Every request the part loop issues carries only `Date`, `Authorization`
and `Content-Length` headers (the abort request carries none at all). -/
theorem upload_loop_header_keys (env : Env) (obj uid : String) :
    ∀ (chunks : List FileChunk) (parts : List Part),
    ∀ r ∈ (upload_loop env obj uid chunks parts).2,
      r.headers.map Prod.fst ⊆ ["Date", "Authorization", "Content-Length"] := by
  intro chunks
  induction chunks with
  | nil =>
      intro parts r hr
      simp [upload_loop, complete_multipart_upload] at hr
      subst hr
      rw [complete_request_header_keys]
      exact List.Subset.refl _
  | cons g gs ih =>
      intro parts r hr
      cases hp : env.partResp g.number with
      | ok t =>
          simp only [upload_loop, upload_part, hp] at hr
          rcases List.mem_cons.mp hr with hr | hr
          · subst hr
            rw [part_request_header_keys]
            exact List.Subset.refl _
          · exact ih _ r hr
      | error err =>
          simp only [upload_loop, upload_part, abort_multipart_upload,
            hp] at hr
          rcases List.mem_cons.mp hr with hr | hr
          · subst hr
            rw [part_request_header_keys]
            exact List.Subset.refl _
          · rw [List.mem_singleton] at hr
            subst hr
            intro x hx
            exact absurd hx (by simp [abort_multipart_upload_request])

/-- C10: the caller's custom headers reach only the initiate request: the
rest of the trace (everything after the first request) is identical to a
run with no custom headers, the overall outcome is unchanged, and every
request after the initiate carries only `Date`, `Authorization`,
`Content-Length` headers — never a caller header. -/
theorem custom_headers_only_initiate (env : Env) (object_name : String)
    (chunk_size : Nat) (h : List (String × String)) :
    (chunk_upload_by_size env object_name chunk_size (some h)).2.tail
      = (chunk_upload_by_size env object_name chunk_size none).2.tail ∧
    (chunk_upload_by_size env object_name chunk_size (some h)).1
      = (chunk_upload_by_size env object_name chunk_size none).1 ∧
    ∀ r ∈ (chunk_upload_by_size env object_name chunk_size (some h)).2.tail,
      r.headers.map Prod.fst ⊆ ["Date", "Authorization", "Content-Length"] := by
  unfold chunk_upload_by_size
  cases hsp : split_file_by_part_size env.fileSize chunk_size with
  | error m =>
      exact ⟨rfl, rfl, fun r hr => absurd hr (List.not_mem_nil r)⟩
  | ok chunks =>
      cases chunks with
      | nil =>
          exact ⟨rfl, rfl, fun r hr => absurd hr (List.not_mem_nil r)⟩
      | cons c cs =>
          have hi1 : initiate_multipart_upload env object_name (some h)
              = ((initiate_multipart_upload env object_name (some h)).1,
                 env.initResp) := rfl
          have hi2 : initiate_multipart_upload env object_name none
              = ((initiate_multipart_upload env object_name none).1,
                 env.initResp) := rfl
          rw [hi1, hi2]
          cases hini : env.initResp with
          | error err =>
              exact ⟨rfl, rfl, fun r hr => absurd hr (List.not_mem_nil r)⟩
          | ok uid =>
              exact ⟨rfl, rfl, fun r hr =>
                upload_loop_header_keys env object_name uid (c :: cs) [] r hr⟩

/-! ### Concrete environments for the evaluated runs -/

/-- A benign environment: a 1-byte file, all network operations succeed. -/
def baseEnv : Env where
  date := "d"
  sign := fun _ _ _ _ => "sig"
  fileSize := 1
  fileBytes := [9]
  initResp := .ok "uid"
  partResp := fun _ => .ok "etag1"
  completeResp := .ok ()
  abortResp := .ok ()

/-- 2-byte file whose part uploads all fail. -/
def envC7 : Env :=
  { baseEnv with fileSize := 2, fileBytes := [10, 20],
                 partResp := fun _ => .error (.putError "part failed") }

/-- C7: evaluating a failing run: the abort request the code sends carries
no headers at all — neither `Date` nor `Authorization` (the code builds the
signed header map but drops it at the send call, oss.rs:661) — while the
part-upload request of the same run does carry `Date`, `Authorization` and
a `Content-Length` equal to its body's byte count. -/
theorem abort_sent_without_headers :
    (chunk_upload_by_size envC7 "obj" 1 none).1
      = Except.error (.putError "part failed") ∧
    ((chunk_upload_by_size envC7 "obj" 1 none).2.filter
      fun r => r.method == Method.delete)
      = [{ method := .delete, object := "obj", resource := "uploadId=uid",
           headers := [], body := none }] ∧
    (upload_part_request envC7 "obj"
      { number := 1, offset := 0, size := 1 } "uid" none).headers
      = [("Date", "d"), ("Authorization", "sig"), ("Content-Length", "1")] ∧
    (upload_part_request envC7 "obj"
      { number := 1, offset := 0, size := 1 } "uid" none).body
      = some (.bytes [10]) :=
  ⟨rfl, rfl, rfl, rfl⟩

/-- 1-byte file, uploads succeed. -/
def envC8 : Env :=
  { baseEnv with fileBytes := [7], partResp := fun _ => .ok "etag0" }

/-- C8 counterexample: asking `load_chunk_file` for 2 bytes of a 1-byte
file returns just 1 byte with no error, and the part upload proceeds and
succeeds with the short body — a short read is silently tolerated. -/
theorem short_read_tolerated :
    load_chunk_file envC8.fileBytes 0 2 = [7] ∧
    (upload_part envC8 "obj" { number := 1, offset := 0, size := 2 }
      "uid" none).2 = Except.ok "etag0" ∧
    (upload_part_request envC8 "obj" { number := 1, offset := 0, size := 2 }
      "uid" none).body = some (.bytes [7]) ∧
    ("Content-Length", "1") ∈ (upload_part_request envC8 "obj"
      { number := 1, offset := 0, size := 2 } "uid" none).headers := by
  refine ⟨rfl, rfl, rfl, ?_⟩
  decide

/-- C8 amended: the part body is `load_chunk_file`'s result, which is the
planned range truncated at end of file (`(file.drop offset).take size`);
when the planned range lies inside the file — as every planner-produced
chunk does for an unchanged file — the body is exactly the `size` bytes at
`offset`, and the content-length header states exactly that count.  A range
reaching past end of file is NOT rejected: the shorter body is sent
silently. -/
theorem load_chunk_file_range (env : Env) (object_name : String)
    (c : FileChunk) (upload_id : String)
    (hin : c.offset + c.size ≤ env.fileBytes.length) :
    (upload_part_request env object_name c upload_id none).body
      = some (.bytes (load_chunk_file env.fileBytes c.offset c.size)) ∧
    load_chunk_file env.fileBytes c.offset c.size
      = (env.fileBytes.drop c.offset).take c.size ∧
    (load_chunk_file env.fileBytes c.offset c.size).length = c.size ∧
    ("Content-Length", toString c.size) ∈
      (upload_part_request env object_name c upload_id none).headers := by
  have hlen : (load_chunk_file env.fileBytes c.offset c.size).length
      = c.size := by
    unfold load_chunk_file
    rw [List.length_take, List.length_drop]
    omega
  refine ⟨rfl, rfl, hlen, ?_⟩
  show ("Content-Length", toString c.size) ∈
    hdrInsert _ "Content-Length"
      (toString (load_chunk_file env.fileBytes c.offset c.size).length)
  rw [hlen]
  unfold hdrInsert
  exact List.mem_append_right _ (by simp)

/-! ### Concrete witnesses -/

/-- 3-byte file whose second part upload fails. -/
def envC1 : Env :=
  { baseEnv with fileSize := 3, fileBytes := [1, 2, 3],
                 partResp := fun n =>
                   if n == 2 then .error (.putError "boom")
                   else .ok "etag" }

/-- 20000-byte file (10000 full chunks at `chunk_size = 2`). -/
def envBig : Env := { baseEnv with fileSize := 20000 }

/-- Zero-length file. -/
def env0 : Env := { baseEnv with fileSize := 0 }

theorem chunk_planner_spec_witness :
    (0 : Nat) < 100000 ∧
    (([{ number := 1, offset := 0, size := 100000 },
       { number := 2, offset := 100000, size := 100000 },
       { number := 3, offset := 200000, size := 50000 }] :
      List FileChunk).map FileChunk.size).sum = 250000 :=
  ⟨by norm_num,
   (chunk_planner_spec 250000 100000 (by norm_num) _ rfl).2.2.2.2.2.1⟩

theorem chunk_upload_abort_policy_witness :
    (chunk_upload_by_size envC1 "o" 1 none).1
      = Except.error (.putError "boom") ∧
    ((chunk_upload_by_size envC1 "o" 1 none).2.filter
      fun r => r.method == Method.delete)
      = [abort_multipart_upload_request envC1 "o" "uid"] := by
  have h := chunk_upload_abort_policy envC1 "o" 1 none
    [{ number := 1, offset := 0, size := 1 }]
    [{ number := 3, offset := 2, size := 1 }]
    { number := 2, offset := 1, size := 1 } "uid" (.putError "boom")
    (by rfl) (by rfl)
    (by intro g hg
        rw [List.mem_singleton] at hg
        subst hg
        exact ⟨"etag", rfl⟩)
    (by rfl)
  exact ⟨h.1, h.2.1⟩

theorem split_limit_rejects_witness :
    split_file_by_part_size envBig.fileSize 2 =
      .error "Too many parts, please increase part size" ∧
    chunk_upload_by_size envBig "o" 2 none =
      (.error (.e "Too many parts, please increase part size"), []) :=
  split_limit_rejects envBig "o" 2 none (by decide)

theorem get_resources_str_spec_witness :
    get_resources_str [("uploads", none), ("acl", some "1")]
      = get_resources_str [("acl", some "1"), ("uploads", none)] :=
  (get_resources_str_spec [("uploads", none), ("acl", some "1")]
    [("acl", some "1"), ("uploads", none)] (by decide)
    (List.Perm.swap ("acl", some "1") ("uploads", none) [])).1

theorem load_chunk_file_range_witness :
    0 + 1 ≤ baseEnv.fileBytes.length ∧
    (load_chunk_file baseEnv.fileBytes 0 1).length = 1 :=
  ⟨by decide,
   (load_chunk_file_range baseEnv "o"
     { number := 1, offset := 0, size := 1 } "uid" (by decide)).2.2.1⟩

theorem chunk_upload_empty_file_witness :
    split_file_by_part_size env0.fileSize 1 = .ok [] ∧
    chunk_upload_by_size env0 "o" 1 none =
      (.error (.e "chunks is empty"), []) :=
  chunk_upload_empty_file env0 "o" 1 none rfl (by norm_num)

theorem custom_headers_only_initiate_witness :
    (chunk_upload_by_size baseEnv "o" 1
      (some [("x-custom", "v")])).2.tail
      = (chunk_upload_by_size baseEnv "o" 1 none).2.tail ∧
    (upload_part_request baseEnv "o"
      { number := 1, offset := 0, size := 1 } "uid" none).headers.map
      Prod.fst ⊆ ["Date", "Authorization", "Content-Length"] :=
  ⟨(custom_headers_only_initiate baseEnv "o" 1 [("x-custom", "v")]).1,
   (custom_headers_only_initiate baseEnv "o" 1 [("x-custom", "v")]).2.2
     (upload_part_request baseEnv "o"
       { number := 1, offset := 0, size := 1 } "uid" none)
     (by decide)⟩

end Oss
